import Mathlib

/-!
Verification development for the client-side observability and usage-accounting
subsystem of this repository: the debug-capture module (`DebugManager` in
src/unnamed/part_002) and the token-usage store (src/unnamed/part_001).

Modelling conventions (shallow embedding):
* JavaScript structured values handed to the debug logger are modelled by the
  inductive `JVal`.  A value on which `JSON.stringify` throws (a circular
  structure) is modelled by the constructor `JVal.circular`; `JSON.stringify`
  itself is modelled by `jsonSerialize : JVal → Option String` (`none` = the
  TypeError thrown by the runtime), and a propagating exception is modelled by
  `Except.error ()`.
* JSON numbers are modelled as integers (the debug code never computes with
  them, it only passes them through and serializes them).
* Byte sizes are `String.utf8ByteSize`, matching `new TextEncoder().encode(s).length`.
* JavaScript `number` budgets (`maxSize`, and the fractional `maxSize / 10`,
  `maxSize / 4` budgets produced by the recursion) are modelled as rationals;
  binary floating-point rounding is not modelled.
* Timestamps (`Date.now()`, `new Date().toISOString()`) are modelled as integer
  epoch milliseconds supplied by the caller; locale date formatting
  (`toLocaleDateString`, used only for the usage chart labels) is not modelled,
  so the `chartData` field of `getUsageStats` is omitted from the embedding.
* Monkey-patched global primitives (window.fetch, console methods,
  localStorage.setItem, the document cookie setter) are modelled by counting
  how many debug wrappers are currently layered over the pristine primitive,
  which is exactly what the spec's wrap-count property observes.
-/

/-- A JavaScript value passed to the logger.  `circular` stands for any value
on which `JSON.stringify` throws (e.g. a self-referential object). -/
inductive JVal where
  | str (s : String)
  | num (n : Int)
  | bool (b : Bool)
  | null
  | arr (items : List JVal)
  | obj (entries : List (String × JVal))
  | circular
deriving Repr

/-- Lower-case hex digit, used for JSON \u escapes of control characters. -/
def hexDigitChar (n : Nat) : Char :=
  if n < 10 then Char.ofNat (48 + n) else Char.ofNat (87 + n)

/-- How `JSON.stringify` escapes a single character inside a string literal. -/
def jsonEscapeChar (c : Char) : String :=
  if c = '"' then "\\\""
  else if c = '\\' then "\\\\"
  else if c = '\n' then "\\n"
  else if c = '\r' then "\\r"
  else if c = '\t' then "\\t"
  else if c.toNat < 32 then
    "\\u00" ++ String.mk [hexDigitChar (c.toNat / 16), hexDigitChar (c.toNat % 16)]
  else String.singleton c

/-- Embeds `JSON.stringify` of a string: quotes around the escaped characters. -/
def jsonQuote (s : String) : String :=
  "\"" ++ String.join (s.toList.map jsonEscapeChar) ++ "\""

mutual
/-- Embeds `JSON.stringify` (no spacing), returning `none` when the runtime would
throw (a circular value somewhere inside the input). -/
def jsonSerialize : JVal → Option String
  | .str s => some (jsonQuote s)
  | .num n => some (toString n)
  | .bool b => some (if b then "true" else "false")
  | .null => some "null"
  | .arr items =>
      (jsonSerializeItems items).map
        (fun parts => "[" ++ String.intercalate "," parts ++ "]")
  | .obj entries =>
      (jsonSerializeEntries entries).map
        (fun parts => "\x7b" ++ String.intercalate "," parts ++ "\x7d")
  | .circular => none

/-- Serialized forms of the elements of an array. -/
def jsonSerializeItems : List JVal → Option (List String)
  | [] => some []
  | v :: rest => do
      let s ← jsonSerialize v
      let ss ← jsonSerializeItems rest
      some (s :: ss)

/-- Serialized `"key":value` members of an object. -/
def jsonSerializeEntries : List (String × JVal) → Option (List String)
  | [] => some []
  | (k, v) :: rest => do
      let s ← jsonSerialize v
      let ss ← jsonSerializeEntries rest
      some ((jsonQuote k ++ ":" ++ s) :: ss)
end

/-- Models `new TextEncoder().encode(JSON.stringify(v)).length`, when stringify succeeds. -/
def jsonByteSize (v : JVal) : Option Nat := (jsonSerialize v).map String.utf8ByteSize

/-- Whether `JSON.stringify` succeeds on `v`. -/
def serializes (v : JVal) : Bool := (jsonSerialize v).isSome

/-- JavaScript truthiness of a `JVal` (`'' `, `0`, `false`, `null` are falsy;
any object or array, circular or not, is truthy). -/
def jsTruthy : JVal → Bool
  | .str s => !(s == "")
  | .num n => !(n == 0)
  | .bool b => b
  | .null => false
  | .arr _ => true
  | .obj _ => true
  | .circular => true

mutual
/-- Embedding of the inner `truncateData` closure of `DebugManager._log`
(src/unnamed/part_002, lines 260-292).  The first line of the source computes
`new TextEncoder().encode(JSON.stringify(obj)).length` with no try/catch, so a
serialization failure (modelled by `jsonSerialize obj = none`) propagates as
`Except.error ()`.  `obj.slice(0, 10).map (item => truncateData(item, maxSize / 10))`
is modelled by `truncateItems items (maxSize / 10) 10`, which recurses through
at most the first 10 elements. -/
def truncateData (obj : JVal) (maxSize : ℚ) : Except Unit JVal :=
  match jsonSerialize obj with
  | none => .error ()
  | some s =>
    if (s.utf8ByteSize : ℚ) ≤ maxSize then .ok obj
    else
      match obj with
      | .str str =>
          .ok (.str (str.take (Int.floor (maxSize / 2)).toNat ++ "... [truncated]"))
      | .arr items => (truncateItems items (maxSize / 10) 10).map JVal.arr
      | .obj entries => (truncateEntries entries maxSize 0).map JVal.obj
      | v => .ok v

/-- Embeds `obj.slice(0, n).map(item => truncateData(item, budget))` on an array. -/
def truncateItems : List JVal → ℚ → Nat → Except Unit (List JVal)
  | _, _, 0 => .ok []
  | [], _, _ => .ok []
  | v :: rest, budget, n + 1 => do
      let t ← truncateData v budget
      let ts ← truncateItems rest budget n
      .ok (t :: ts)

/-- The `for (const [key, value] of Object.entries(obj))` loop of the source:
stop (`break`) once `currentSize >= maxSize`, otherwise truncate the value to
`maxSize / 4` and add the serialized size of the truncated value to
`currentSize`. -/
def truncateEntries : List (String × JVal) → ℚ → Nat → Except Unit (List (String × JVal))
  | [], _, _ => .ok []
  | (k, v) :: rest, maxSize, currentSize =>
      if maxSize ≤ (currentSize : ℚ) then .ok []
      else do
        let t ← truncateData v (maxSize / 4)
        match jsonSerialize t with
        | none => .error ()
        | some ts => do
            let rest' ← truncateEntries rest maxSize (currentSize + ts.utf8ByteSize)
            .ok ((k, t) :: rest')
end

/-- Total projection of `truncateData` used to write the appended entry's
`data` field.  It is meaningful only on the path where `logCall` has already
checked (via `dataSerializes`) that the source's `truncateData(data)` call
returns rather than throws; on that path it equals the `.ok` result of
`truncateData` (`truncateDataT_eq_of_ok`). -/
def truncateDataT (v : JVal) (m : ℚ) : JVal := ((truncateData v m).toOption).getD v

/-- Whether the source expression `data ? truncateData(data) : undefined`
(line 299) evaluates without throwing: it throws exactly when `data` is truthy
and serialization fails inside `truncateData`; a falsy or absent `data` never
reaches `truncateData`. -/
def dataSerializes : Option JVal → ℚ → Bool
  | some d, m => if jsTruthy d then (truncateData d m).isOk else true
  | none, _ => true

/-- Log severity (src/unnamed/part_002 line 1). -/
inductive LogLevel where
  | debug | info | warn | error
deriving Repr, DecidableEq

/-- Log category (src/unnamed/part_002 line 5). -/
inductive LogCategory where
  | network | state | user | system | error
deriving Repr, DecidableEq

/-- A retained log entry (src/unnamed/part_002 lines 2-9).  The ISO timestamp
string is modelled by the epoch-millisecond instant it denotes. -/
structure LogEntry where
  timestamp : Int
  level : LogLevel
  category : LogCategory
  message : String
  data : Option JVal
  trace : Option String
deriving Repr

/-- State of the `DebugManager` singleton that the claims depend on
(src/unnamed/part_002 lines 13-28).  A registered listener callback is modelled
by an identifier together with whether invoking it raises an exception. -/
structure DMState where
  logs : List LogEntry
  maxLogs : Nat
  maxDataSize : ℚ
  isEnabled : Bool
  listeners : List (Nat × Bool)
deriving Repr

/-- The field initializers of the `DebugManager` class (lines 15-20):
`_logs = []`, `_maxLogs = 100`, `_maxDataSize = 50 * 1024`,
`_isEnabled = false`, `_listeners = new Set()`. -/
def initialDMState : DMState :=
  { logs := []
    maxLogs := 100
    maxDataSize := 50 * 1024
    isEnabled := false
    listeners := [] }

/-- Construction of the entry inside `_log` (lines 294-301):
`String(message).substring(0, 1000)`, `data ? truncateData(data) : undefined`,
`trace ? trace.split('\n').slice(0, 5).join('\n') : undefined`. -/
def mkLogEntry (now : Int) (level : LogLevel) (category : LogCategory)
    (message : String) (data : Option JVal) (trace : Option String)
    (maxDataSize : ℚ) : LogEntry :=
  { timestamp := now
    level := level
    category := category
    message := message.take 1000
    data :=
      match data with
      | some d => if jsTruthy d then some (truncateDataT d maxDataSize) else none
      | none => none
    trace :=
      match trace with
      | some t =>
          if t == "" then none
          else some (String.intercalate "\n" ((t.splitOn "\n").take 5))
      | none => none }

/-- Outcome of the `this._listeners.forEach((listener) => listener(entry))`
fan-out: which listeners were invoked (in registration order) and whether a
listener exception propagated (aborting the iteration). -/
structure NotifyResult where
  invoked : List Nat
  raised : Bool
deriving Repr, DecidableEq

/-- Models `Set.prototype.forEach` over the registered listeners: a callback that
throws aborts the iteration and the exception propagates. -/
def notifyListeners : List (Nat × Bool) → NotifyResult
  | [] => { invoked := [], raised := false }
  | (id, willRaise) :: rest =>
      if willRaise then { invoked := [id], raised := true }
      else
        let r := notifyListeners rest
        { invoked := id :: r.invoked, raised := r.raised }

/-- What a `_log` invocation did: nothing (capture disabled), threw while
constructing the entry (the `truncateData` call on unserializable data raised
before the `unshift`, so no entry was appended and no listener ran — the
exception propagates to `_log`'s caller), or appended the entry and ran the
listener fan-out. -/
inductive LogOutcome where
  | skipped
  | threw
  | notified (r : NotifyResult)
deriving Repr, DecidableEq

/-- Embeds `DebugManager._log` (lines 255-310): return immediately when capture
is disabled; build the entry — if the `truncateData` call inside the entry
construction throws (unserializable truthy `data`), the exception propagates
with the state untouched; otherwise `unshift` the entry, `pop` when the length
exceeds `maxLogs`, then notify every listener. -/
def logCall (now : Int) (level : LogLevel) (category : LogCategory)
    (message : String) (data : Option JVal) (trace : Option String)
    (st : DMState) : DMState × LogOutcome :=
  if st.isEnabled = false then (st, .skipped)
  else if dataSerializes data st.maxDataSize = false then (st, .threw)
  else
    let entry := mkLogEntry now level category message data trace st.maxDataSize
    let logs1 := entry :: st.logs
    let logs2 := if st.maxLogs < logs1.length then logs1.dropLast else logs1
    ({ st with logs := logs2 }, .notified (notifyListeners st.listeners))

/-- Embeds `DebugManager.getLogs` (lines 336-338): a copy of `_logs`, head = newest. -/
def getLogs (st : DMState) : List LogEntry := st.logs

/-- Embeds `DebugManager.clearLogs` (lines 352-355): empty the buffer, then log a
synthetic `info/system` "Logs cleared" entry through `_log`. -/
def clearLogs (now : Int) (st : DMState) : DMState × LogOutcome :=
  logCall now .info .system "Logs cleared" none none { st with logs := [] }

/-- Embeds `DebugManager.addListener` (lines 357-360): register one more callback. -/
def addListener (id : Nat) (willRaise : Bool) (st : DMState) : DMState :=
  { st with listeners := st.listeners ++ [(id, willRaise)] }

/-- The body of the periodic cleanup interval started by `enableDebug`
(lines 230-236): drop entries older than one hour. -/
def cleanupTick (now : Int) (st : DMState) : DMState :=
  { st with logs := st.logs.filter (fun e => decide (now - 60 * 60 * 1000 < e.timestamp)) }

/-- Arguments of one `_log` invocation (used to quantify over call sequences). -/
structure LogArgs where
  now : Int
  level : LogLevel
  category : LogCategory
  message : String
  data : Option JVal
  trace : Option String

/-- A sequence of `_log` calls, applied in order. -/
def runLogs (st : DMState) (calls : List LogArgs) : DMState :=
  calls.foldl
    (fun s a => (logCall a.now a.level a.category a.message a.data a.trace s).1) st

/-- The browser environment surrounding the `DebugManager`, as far as the
lifecycle claims observe it.  Each monkey-patched primitive is modelled by the
number of debug wrappers currently layered over the pristine implementation
(0 = pristine); `originalFetch` is the `_originalFetch` field (the
implementation saved for restore, as a layer count); `cookieSetterWrapped`
records whether `document` carries an own `cookie` property wrapping the
`Document.prototype` setter; `activeIntervals` counts timers currently
scheduled by `setInterval`; `cleanupHandleSet` mirrors whether the
`_cleanupInterval` field holds a handle; `persistedDebugFlag` is the
`devDebugEnabled` entry of localStorage. -/
structure EnvState where
  dm : DMState
  fetchImpl : Nat
  originalFetch : Option Nat
  consoleImpl : Nat
  errorHandlersSet : Bool
  setItemImpl : Nat
  cookieSetterWrapped : Bool
  activeIntervals : Nat
  cleanupHandleSet : Bool
  persistedDebugFlag : Option Bool
deriving Repr

/-- Pristine page: nothing wrapped, no timer, manager in its initial state. -/
def initialEnv : EnvState :=
  { dm := initialDMState
    fetchImpl := 0
    originalFetch := none
    consoleImpl := 0
    errorHandlersSet := false
    setItemImpl := 0
    cookieSetterWrapped := false
    activeIntervals := 0
    cleanupHandleSet := false
    persistedDebugFlag := none }

/-- Embeds `_interceptNetworkCalls` (lines 61-68): save the current `window.fetch`
into `_originalFetch`, install a wrapper that delegates to the saved value. -/
def interceptNetworkCalls (st : EnvState) : EnvState :=
  { st with originalFetch := some st.fetchImpl, fetchImpl := st.fetchImpl + 1 }

/-- Embeds `_restoreNetworkCalls` (lines 114-119): if `_originalFetch` is set, put it
back as `window.fetch` and clear the field. -/
def restoreNetworkCalls (st : EnvState) : EnvState :=
  match st.originalFetch with
  | some impl => { st with fetchImpl := impl, originalFetch := none }
  | none => st

/-- Embeds `_interceptConsole` (lines 121-141): the four console methods are replaced
by wrappers that delegate to `_originalConsole`, which was captured at
construction time (the pristine implementations) — so after this call exactly
one wrapper sits over the pristine methods, regardless of the previous state. -/
def interceptConsole (st : EnvState) : EnvState :=
  { st with consoleImpl := 1 }

/-- Embeds `_restoreConsole` (lines 143-145): `Object.assign(console, _originalConsole)`. -/
def restoreConsole (st : EnvState) : EnvState :=
  { st with consoleImpl := 0 }

/-- Embeds `_setupErrorListeners` (lines 147-167): install `window.onerror` and
`window.onunhandledrejection`. -/
def setupErrorListeners (st : EnvState) : EnvState :=
  { st with errorHandlersSet := true }

/-- Embeds `_removeErrorListeners` (lines 169-176): set both handlers to null. -/
def removeErrorListeners (st : EnvState) : EnvState :=
  { st with errorHandlersSet := false }

/-- Embeds `_monitorStateChanges` (lines 178-203): wrap the *current*
`localStorage.setItem` (adding one more layer on top of whatever is installed),
and define an own `document.cookie` property wrapping the prototype setter
(replacing any previously installed own property, hence a Bool). -/
def monitorStateChanges (st : EnvState) : EnvState :=
  { st with setItemImpl := st.setItemImpl + 1, cookieSetterWrapped := true }

/-- Embeds `_setupDebugMode` (lines 40-49). -/
def setupDebugMode (st : EnvState) : EnvState :=
  monitorStateChanges (setupErrorListeners (interceptConsole (interceptNetworkCalls st)))

/-- Embeds `_teardownDebugMode` (lines 51-59): restores the network, console and error
interceptors.  Note: the storage-mutation monitors installed by
`_monitorStateChanges` are not restored here (there is no counterpart call). -/
def teardownDebugMode (st : EnvState) : EnvState :=
  removeErrorListeners (restoreConsole (restoreNetworkCalls st))

/-- A call to `localStorage.setItem(key, value)` going through the currently
installed wrappers: each wrapper layer logs an `info/state` "LocalStorage
Update" entry through `_log` before delegating, and the pristine primitive
finally stores the value (only the `devDebugEnabled` key is modelled). -/
def wrappedSetItem (now : Int) (key value : String) (st : EnvState) : EnvState :=
  let dm' := (List.range st.setItemImpl).foldl
    (fun d _ => (logCall now .info .state "LocalStorage Update"
      (some (.obj [("key", .str key), ("value", .str value)])) none d).1)
    st.dm
  { st with
    dm := dm'
    persistedDebugFlag :=
      if key == "devDebugEnabled" then some (value == "true")
      else st.persistedDebugFlag }

/-- Embeds `enableDebug` (lines 221-242): set `_isEnabled`, persist the flag through
`localStorage.setItem`, install the interceptors, start the periodic cleanup
interval (storing its handle in `_cleanupInterval`), and log a synthetic
"Debug Mode Enabled" entry.  `isoNow` and `userAgent` are the
environment-supplied strings placed in the entry's data. -/
def enableDebug (now : Int) (isoNow userAgent : String) (st : EnvState) : EnvState :=
  let st1 := { st with dm := { st.dm with isEnabled := true } }
  let st2 := wrappedSetItem now "devDebugEnabled" "true" st1
  let st3 := setupDebugMode st2
  let st4 := { st3 with
    activeIntervals := st3.activeIntervals + 1
    cleanupHandleSet := true }
  { st4 with
    dm := (logCall now .info .system "Debug Mode Enabled"
      (some (.obj [("timestamp", .str isoNow), ("userAgent", .str userAgent)]))
      none st4.dm).1 }

/-- Embeds `disableDebug` (lines 244-253): clear `_isEnabled`, persist the flag,
tear down the interceptors, and empty the buffer.  Note: no `clearInterval`
call appears anywhere in the source, so the interval started by `enableDebug`
stays scheduled and `_cleanupInterval` keeps its stale handle. -/
def disableDebug (now : Int) (st : EnvState) : EnvState :=
  let st1 := { st with dm := { st.dm with isEnabled := false } }
  let st2 := wrappedSetItem now "devDebugEnabled" "false" st1
  let st3 := teardownDebugMode st2
  { st3 with dm := { st3.dm with logs := [] } }

/-- A metered usage event (src/unnamed/part_001 lines 5-12). -/
structure TokenUsageData where
  provider : String
  model : String
  promptTokens : Int
  completionTokens : Int
  totalTokens : Int
  timestamp : Int
deriving Repr, DecidableEq

/-- The usage store (src/unnamed/part_001 lines 14-17): the event ledger plus
the per-provider limits map.  The JavaScript `Record<string, number>` is
modelled as an insertion-ordered association list with unique keys. -/
structure TokenUsageStore where
  usageData : List TokenUsageData
  limits : List (String × Int)
deriving Repr, DecidableEq

/-- The horizon `MAX_HISTORY_DAYS * 24 * 60 * 60 * 1000` (lines 20, 68). -/
def maxHistoryMs : Int := 30 * 24 * 60 * 60 * 1000

/-- The empty initial state (lines 25-28). -/
def initialTokenUsageState : TokenUsageStore :=
  { usageData := [], limits := [] }

/-- Embeds `addTokenUsage` (lines 60-76) acting on the in-memory store: append the
event, then keep only the events with `timestamp >= cutoffTime` where
`cutoffTime = Date.now() - 30 days`. -/
def addTokenUsage (now : Int) (st : TokenUsageStore) (d : TokenUsageData) :
    TokenUsageStore :=
  let appended := st.usageData ++ [d]
  let cutoffTime := now - maxHistoryMs
  { st with usageData := appended.filter (fun e => decide (cutoffTime ≤ e.timestamp)) }

/-- Overwrite-or-insert into the association list modelling a JavaScript
object keyed by provider name. -/
def recordSet (acc : List (String × Int)) (p : String) (t : Int) :
    List (String × Int) :=
  match acc with
  | [] => [(p, t)]
  | (q, u) :: rest => if q = p then (q, t) :: rest else (q, u) :: recordSet rest p t

/-- Read `acc[p]`, `none` when the key is absent. -/
def recordGet : List (String × Int) → String → Option Int
  | [], _ => none
  | (q, u) :: rest, p => if q = p then some u else recordGet rest p

/-- Embeds `acc[d.provider] = (acc[d.provider] || 0) + d.totalTokens` (lines 122-128). -/
def bumpProvider (acc : List (String × Int)) (p : String) (t : Int) :
    List (String × Int) :=
  recordSet acc p ((recordGet acc p).getD 0 + t)

/-- Embeds `setTokenLimit` (lines 79-93) acting on the in-memory store. -/
def setTokenLimit (st : TokenUsageStore) (provider : String) (limit : Int) :
    TokenUsageStore :=
  { st with limits := recordSet st.limits provider limit }

/-- The four time ranges of `getUsageStats` (line 96). -/
inductive TimeRange where
  | h24 | d7 | d30 | all
deriving Repr, DecidableEq

/-- The `switch (timeRange)` cutoff (lines 100-114): `'all'` uses 0. -/
def cutoffTimeOf (r : TimeRange) (now : Int) : Int :=
  match r with
  | .h24 => now - 24 * 60 * 60 * 1000
  | .d7 => now - 7 * 24 * 60 * 60 * 1000
  | .d30 => now - 30 * 24 * 60 * 60 * 1000
  | .all => 0

/-- The aggregate record returned by `getUsageStats` (lines 150-161); the
`chartData` field (locale-dependent daily labels) is not modelled. -/
structure UsageStats where
  total : Int
  used : Int
  remaining : Int
  percentUsed : ℚ
  providerBreakdown : List (String × Int × ℚ)
deriving Repr

/-- Embeds `getUsageStats` (src/unnamed/part_001 lines 96-162). -/
def getUsageStats (r : TimeRange) (st : TokenUsageStore) (now : Int) : UsageStats :=
  let cutoffTime := cutoffTimeOf r now
  let filteredData := st.usageData.filter (fun d => decide (cutoffTime ≤ d.timestamp))
  let totalTokens := filteredData.foldl (fun sum d => sum + d.totalTokens) 0
  let providerUsage := filteredData.foldl
    (fun acc d => bumpProvider acc d.provider d.totalTokens) []
  let totalAvailable := st.limits.foldl (fun sum l => sum + l.2) 0
  { total := totalAvailable
    used := totalTokens
    remaining := max 0 (totalAvailable - totalTokens)
    percentUsed :=
      if 0 < totalAvailable then ((totalTokens : ℚ) / (totalAvailable : ℚ)) * 100
      else 0
    providerBreakdown := providerUsage.map (fun pu =>
      (pu.1, pu.2,
        if 0 < totalTokens then ((pu.2 : ℚ) / (totalTokens : ℚ)) * 100 else 0)) }

/-- The client-side store together with its durable copy (the
`tokenUsageData` cookie).  The cookie holds the JSON serialization of the
state; it is modelled by the state it deserializes to. -/
structure ClientUsageState where
  store : TokenUsageStore
  cookie : Option TokenUsageStore
deriving Repr, DecidableEq

/-- Embeds `addTokenUsage` on the client (lines 60-76 together with `saveToStorage`,
lines 47-57): update the store, then persist the new state to the cookie
(the success path of the try/catch around `Cookies.set`). -/
def addTokenUsageClient (now : Int) (cs : ClientUsageState) (d : TokenUsageData) :
    ClientUsageState :=
  let newState := addTokenUsage now cs.store d
  { store := newState, cookie := some newState }

/-! ### Basic properties of `logCall` -/

theorem logCall_fst_isEnabled (now : Int) (lv : LogLevel) (cat : LogCategory)
    (msg : String) (d : Option JVal) (tr : Option String) (st : DMState) :
    ((logCall now lv cat msg d tr st).1).isEnabled = st.isEnabled := by
  by_cases h : st.isEnabled = false
  · simp [logCall, h]
  · by_cases h2 : dataSerializes d st.maxDataSize = false <;> simp [logCall, h, h2]

theorem logCall_fst_maxLogs (now : Int) (lv : LogLevel) (cat : LogCategory)
    (msg : String) (d : Option JVal) (tr : Option String) (st : DMState) :
    ((logCall now lv cat msg d tr st).1).maxLogs = st.maxLogs := by
  by_cases h : st.isEnabled = false
  · simp [logCall, h]
  · by_cases h2 : dataSerializes d st.maxDataSize = false <;> simp [logCall, h, h2]

theorem logCall_fst_maxDataSize (now : Int) (lv : LogLevel) (cat : LogCategory)
    (msg : String) (d : Option JVal) (tr : Option String) (st : DMState) :
    ((logCall now lv cat msg d tr st).1).maxDataSize = st.maxDataSize := by
  by_cases h : st.isEnabled = false
  · simp [logCall, h]
  · by_cases h2 : dataSerializes d st.maxDataSize = false <;> simp [logCall, h, h2]

theorem logCall_fst_listeners (now : Int) (lv : LogLevel) (cat : LogCategory)
    (msg : String) (d : Option JVal) (tr : Option String) (st : DMState) :
    ((logCall now lv cat msg d tr st).1).listeners = st.listeners := by
  by_cases h : st.isEnabled = false
  · simp [logCall, h]
  · by_cases h2 : dataSerializes d st.maxDataSize = false <;> simp [logCall, h, h2]

/-- While enabled and on serializable data, an append puts the new entry at
the head and keeps at most `maxLogs` entries: the result is `take maxLogs` of
the head-extended list. -/
theorem logCall_fst_logs (now : Int) (lv : LogLevel) (cat : LogCategory)
    (msg : String) (d : Option JVal) (tr : Option String) (st : DMState)
    (h1 : st.isEnabled = true) (h2 : st.logs.length ≤ st.maxLogs)
    (h3 : dataSerializes d st.maxDataSize = true) :
    ((logCall now lv cat msg d tr st).1).logs
      = (mkLogEntry now lv cat msg d tr st.maxDataSize :: st.logs).take st.maxLogs := by
  simp only [logCall, h1, Bool.true_eq_false, if_neg, if_false, reduceIte, h3,
    Bool.true_eq_false]
  set e := mkLogEntry now lv cat msg d tr st.maxDataSize
  by_cases hb : st.maxLogs < (e :: st.logs).length
  · have hlen : st.logs.length = st.maxLogs := by
      simp only [List.length_cons] at hb
      omega
    simp only [hb, if_true, List.dropLast_eq_take, List.length_cons, hlen]
    simp
  · simp only [hb, if_false, reduceIte]
    rw [List.take_of_length_le]
    simp only [List.length_cons] at hb ⊢
    omega

theorem logCall_fst_of_disabled (now : Int) (lv : LogLevel) (cat : LogCategory)
    (msg : String) (d : Option JVal) (tr : Option String) (st : DMState)
    (h : st.isEnabled = false) :
    (logCall now lv cat msg d tr st).1 = st := by
  simp [logCall, h]

/-- On unserializable truthy data while enabled, `_log` throws before the
`unshift`: the state is untouched and no listener is invoked. -/
theorem logCall_of_threw (now : Int) (lv : LogLevel) (cat : LogCategory)
    (msg : String) (d : Option JVal) (tr : Option String) (st : DMState)
    (h1 : st.isEnabled = true) (h3 : dataSerializes d st.maxDataSize = false) :
    logCall now lv cat msg d tr st = (st, .threw) := by
  simp [logCall, h1, h3]

/-- Absent data never reaches `truncateData`, so it never throws. -/
theorem dataSerializes_none (m : ℚ) : dataSerializes none m = true := rfl

/-! ### Claims C3 and C4: the payload truncator -/

/-- Unfolding equation for `truncateData` (proved per constructor). -/
theorem truncateData_unfold (obj : JVal) (maxSize : ℚ) :
    truncateData obj maxSize
      = match jsonSerialize obj with
        | none => .error ()
        | some s =>
          if (s.utf8ByteSize : ℚ) ≤ maxSize then .ok obj
          else
            match obj with
            | .str str =>
                .ok (.str (str.take (Int.floor (maxSize / 2)).toNat ++ "... [truncated]"))
            | .arr items => (truncateItems items (maxSize / 10) 10).map JVal.arr
            | .obj entries => (truncateEntries entries maxSize 0).map JVal.obj
            | v => .ok v := by
  cases obj <;> rfl

theorem truncateItems_zero (l : List JVal) (b : ℚ) : truncateItems l b 0 = .ok [] := by
  cases l <;> rfl

theorem truncateItems_nil (b : ℚ) (k : Nat) : truncateItems [] b k = .ok [] := by
  cases k <;> rfl

/-- Reduction of an Except bind whose first computation already succeeded. -/
theorem exceptBind_ok {ε α β : Type} (a : α) (f : α → Except ε β) :
    (Except.ok a : Except ε α) >>= f = f a := rfl

theorem truncateEntries_nil (ms : ℚ) (cs : Nat) : truncateEntries [] ms cs = .ok [] := rfl

theorem jsonSerializeItems_isSome (l : List JVal) :
    (jsonSerializeItems l).isSome = true ↔ ∀ v ∈ l, serializes v = true := by
  induction l with
  | nil => simp [jsonSerializeItems]
  | cons v rest ih =>
      cases hv : jsonSerialize v with
      | none =>
          simp only [jsonSerializeItems, hv, Option.bind_eq_bind, Option.none_bind]
          simp only [Option.isSome_none, Bool.false_eq_true, false_iff]
          intro hall
          have := hall v (by simp)
          simp [serializes, hv] at this
      | some s =>
          simp only [jsonSerializeItems, hv, Option.bind_eq_bind, Option.some_bind]
          cases hr : jsonSerializeItems rest with
          | none =>
              simp only [Option.none_bind, Option.isSome_none, Bool.false_eq_true,
                false_iff]
              intro hall
              have : ∀ w ∈ rest, serializes w = true :=
                fun w hw => hall w (by simp [hw])
              have h2 := ih.mpr this
              rw [hr] at h2
              simp at h2
          | some ss =>
              simp only [Option.some_bind, Option.isSome_some, true_iff]
              intro w hw
              rcases List.mem_cons.mp hw with heq | hmem
              · subst heq
                simp [serializes, hv]
              · have : ∀ w ∈ rest, serializes w = true := by
                  have h2 : (jsonSerializeItems rest).isSome = true := by simp [hr]
                  exact ih.mp h2
                exact this w hmem

theorem jsonSerializeEntries_isSome (l : List (String × JVal)) :
    (jsonSerializeEntries l).isSome = true ↔ ∀ kv ∈ l, serializes kv.2 = true := by
  induction l with
  | nil => simp [jsonSerializeEntries]
  | cons kv rest ih =>
      obtain ⟨k, v⟩ := kv
      cases hv : jsonSerialize v with
      | none =>
          simp only [jsonSerializeEntries, hv, Option.bind_eq_bind, Option.none_bind]
          simp only [Option.isSome_none, Bool.false_eq_true, false_iff]
          intro hall
          have := hall (k, v) (by simp)
          simp [serializes, hv] at this
      | some s =>
          simp only [jsonSerializeEntries, hv, Option.bind_eq_bind, Option.some_bind]
          cases hr : jsonSerializeEntries rest with
          | none =>
              simp only [Option.none_bind, Option.isSome_none, Bool.false_eq_true,
                false_iff]
              intro hall
              have : ∀ w ∈ rest, serializes w.2 = true :=
                fun w hw => hall w (by simp [hw])
              have h2 := ih.mpr this
              rw [hr] at h2
              simp at h2
          | some ss =>
              simp only [Option.some_bind, Option.isSome_some, true_iff]
              intro w hw
              rcases List.mem_cons.mp hw with heq | hmem
              · subst heq
                simp [serializes, hv]
              · have h2 : (jsonSerializeEntries rest).isSome = true := by simp [hr]
                exact ih.mp h2 w hmem

theorem serializes_arr_iff (items : List JVal) :
    serializes (JVal.arr items) = true ↔ ∀ v ∈ items, serializes v = true := by
  rw [← jsonSerializeItems_isSome]
  simp [serializes, jsonSerialize]

theorem serializes_obj_iff (entries : List (String × JVal)) :
    serializes (JVal.obj entries) = true ↔ ∀ kv ∈ entries, serializes kv.2 = true := by
  rw [← jsonSerializeEntries_isSome]
  simp [serializes, jsonSerialize]

theorem sizeOf_pos_jval (v : JVal) : 0 < sizeOf v := by
  cases v <;> simp

theorem truncateItems_ok : ∀ (l : List JVal) (b : ℚ),
    (∀ w ∈ l, ∀ m : ℚ, serializes w = true →
      ∃ r, truncateData w m = .ok r ∧ serializes r = true) →
    (∀ w ∈ l, serializes w = true) →
    ∀ k : Nat, ∃ rs, truncateItems l b k = .ok rs ∧ ∀ r ∈ rs, serializes r = true := by
  intro l
  induction l with
  | nil =>
      intro b h1 h2 k
      exact ⟨[], truncateItems_nil b k, by simp⟩
  | cons v rest ih =>
      intro b h1 h2 k
      cases k with
      | zero => exact ⟨[], truncateItems_zero _ b, by simp⟩
      | succ k' =>
          obtain ⟨t, ht, htser⟩ := h1 v (by simp) b (h2 v (by simp))
          obtain ⟨ts, hts, htsser⟩ := ih b (fun w hw m hsw => h1 w (by simp [hw]) m hsw)
            (fun w hw => h2 w (by simp [hw])) k'
          refine ⟨t :: ts, ?_, ?_⟩
          · simp only [truncateItems, ht, exceptBind_ok, hts]
          · intro r hr
            rcases List.mem_cons.mp hr with h | h
            · subst h; exact htser
            · exact htsser r h

theorem truncateEntries_ok : ∀ (l : List (String × JVal)) (ms : ℚ),
    (∀ kv ∈ l, ∀ m : ℚ, serializes kv.2 = true →
      ∃ r, truncateData kv.2 m = .ok r ∧ serializes r = true) →
    (∀ kv ∈ l, serializes kv.2 = true) →
    ∀ cs : Nat, ∃ rs, truncateEntries l ms cs = .ok rs
      ∧ ∀ kv ∈ rs, serializes kv.2 = true := by
  intro l
  induction l with
  | nil =>
      intro ms h1 h2 cs
      exact ⟨[], truncateEntries_nil ms cs, by simp⟩
  | cons kv rest ih =>
      obtain ⟨k, v⟩ := kv
      intro ms h1 h2 cs
      by_cases hstop : ms ≤ (cs : ℚ)
      · refine ⟨[], ?_, by simp⟩
        simp only [truncateEntries, if_pos hstop]
      · obtain ⟨t, ht, htser⟩ := h1 (k, v) (by simp) (ms / 4) (h2 (k, v) (by simp))
        obtain ⟨ts, hts⟩ := Option.isSome_iff_exists.mp htser
        obtain ⟨rs, hrs, hrsser⟩ := ih ms
          (fun w hw m hsw => h1 w (by simp [hw]) m hsw)
          (fun w hw => h2 w (by simp [hw])) (cs + ts.utf8ByteSize)
        refine ⟨(k, t) :: rs, ?_, ?_⟩
        · simp only [truncateEntries, if_neg hstop, ht, exceptBind_ok, hts, hrs]
        · intro w hw
          rcases List.mem_cons.mp hw with h | h
          · subst h; exact htser
          · exact hrsser w h

/-- A failing serialization propagates out of `truncateData` unguarded. -/
theorem truncateData_error_of_not_serializes (v : JVal) (m : ℚ)
    (h : serializes v = false) : truncateData v m = .error () := by
  rw [truncateData_unfold]
  cases hs : jsonSerialize v with
  | none => rfl
  | some s => simp [serializes, hs] at h

/-- On serializable input, `truncateData` always succeeds and its result is
again serializable (strong induction on the size of the value). -/
theorem truncateData_ok_of_serializes :
    ∀ (N : Nat) (v : JVal), sizeOf v ≤ N → ∀ m : ℚ, serializes v = true →
      ∃ r, truncateData v m = .ok r ∧ serializes r = true := by
  intro N
  induction N with
  | zero =>
      intro v hv
      exact absurd hv (by have := sizeOf_pos_jval v; omega)
  | succ N ih =>
      intro v hv m hser
      obtain ⟨s, hs⟩ := Option.isSome_iff_exists.mp hser
      by_cases hle : (s.utf8ByteSize : ℚ) ≤ m
      · refine ⟨v, ?_, hser⟩
        rw [truncateData_unfold, hs]
        dsimp only
        rw [if_pos hle]
      · cases v with
        | str str =>
            refine ⟨.str (str.take (Int.floor (m / 2)).toNat ++ "... [truncated]"),
              ?_, ?_⟩
            · rw [truncateData_unfold, hs]
              dsimp only
              rw [if_neg hle]
            · simp [serializes, jsonSerialize]
        | num n =>
            refine ⟨.num n, ?_, hser⟩
            rw [truncateData_unfold, hs]
            dsimp only
            rw [if_neg hle]
        | bool b =>
            refine ⟨.bool b, ?_, hser⟩
            rw [truncateData_unfold, hs]
            dsimp only
            rw [if_neg hle]
        | null =>
            refine ⟨.null, ?_, hser⟩
            rw [truncateData_unfold, hs]
            dsimp only
            rw [if_neg hle]
        | circular => simp [serializes, jsonSerialize] at hser
        | arr items =>
            have hsz : sizeOf items ≤ N := by
              have hspec : sizeOf (JVal.arr items) = 1 + sizeOf items := by simp
              omega
            have hall : ∀ w ∈ items, serializes w = true :=
              (serializes_arr_iff items).mp hser
            have hrec : ∀ w ∈ items, ∀ m' : ℚ, serializes w = true →
                ∃ r, truncateData w m' = .ok r ∧ serializes r = true := by
              intro w hw m' hws
              have hlt : sizeOf w < sizeOf items := List.sizeOf_lt_of_mem hw
              exact ih w (by omega) m' hws
            obtain ⟨rs, hrs, hrsser⟩ := truncateItems_ok items (m / 10) hrec hall 10
            refine ⟨.arr rs, ?_, (serializes_arr_iff rs).mpr hrsser⟩
            rw [truncateData_unfold, hs]
            dsimp only
            rw [if_neg hle, hrs]
            rfl
        | obj entries =>
            have hsz : sizeOf entries ≤ N := by
              have hspec : sizeOf (JVal.obj entries) = 1 + sizeOf entries := by simp
              omega
            have hall : ∀ kv ∈ entries, serializes kv.2 = true :=
              (serializes_obj_iff entries).mp hser
            have hrec : ∀ kv ∈ entries, ∀ m' : ℚ, serializes kv.2 = true →
                ∃ r, truncateData kv.2 m' = .ok r ∧ serializes r = true := by
              intro kv hkv m' hws
              obtain ⟨a, b⟩ := kv
              have hlt : sizeOf (a, b) < sizeOf entries := List.sizeOf_lt_of_mem hkv
              have hin : sizeOf b < sizeOf (a, b) := by simp
              exact ih b (by omega) m' hws
            obtain ⟨rs, hrs, hrsser⟩ := truncateEntries_ok entries m hrec hall 0
            refine ⟨.obj rs, ?_, (serializes_obj_iff rs).mpr hrsser⟩
            rw [truncateData_unfold, hs]
            dsimp only
            rw [if_neg hle, hrs]
            rfl

/-- A value the truncator passes through unchanged when over budget
(the `return obj` catch-all arm of the source's match: numbers, booleans,
null). -/
def isPassthroughScalar : JVal → Bool
  | .num _ => true
  | .bool _ => true
  | .null => true
  | _ => false

/-- Counterexample to C3 as stated: the number `12345` serializes to 5 bytes,
exceeding the budget `maxBytes = 1`, yet `truncateData` returns it unchanged —
so the output's serialized size (5) is not `≤ maxBytes`. -/
theorem C3_counterexample :
    truncateData (JVal.num 12345) 1 = Except.ok (JVal.num 12345)
    ∧ jsonByteSize (JVal.num 12345) = some 5
    ∧ ¬ ((5 : ℚ) ≤ (1 : ℚ)) := by
  refine ⟨rfl, rfl, by norm_num⟩

/-- Claim C3 amended: the output of `truncateData v maxBytes` serializes to at
most `maxBytes` bytes whenever the input already does (it is returned
unchanged); when the input exceeds the budget no output byte bound is
guaranteed — in particular a non-string scalar is always returned unchanged,
whatever the budget. -/
theorem C3_truncate_amended (v : JVal) (m : ℚ) (n : Nat)
    (h : jsonByteSize v = some n) :
    ((n : ℚ) ≤ m → truncateData v m = Except.ok v)
    ∧ (isPassthroughScalar v = true → truncateData v m = Except.ok v) := by
  obtain ⟨s, hs, hn⟩ : ∃ s, jsonSerialize v = some s ∧ s.utf8ByteSize = n := by
    simpa [jsonByteSize] using h
  constructor
  · intro hle
    rw [truncateData_unfold, hs]
    dsimp only
    rw [if_pos (by rw [hn]; exact hle)]
  · intro hscalar
    cases v with
    | num k =>
        rw [truncateData_unfold, hs]
        dsimp only
        by_cases hle : (s.utf8ByteSize : ℚ) ≤ m
        · rw [if_pos hle]
        · rw [if_neg hle]
    | bool b =>
        rw [truncateData_unfold, hs]
        dsimp only
        by_cases hle : (s.utf8ByteSize : ℚ) ≤ m
        · rw [if_pos hle]
        · rw [if_neg hle]
    | null =>
        rw [truncateData_unfold, hs]
        dsimp only
        by_cases hle : (s.utf8ByteSize : ℚ) ≤ m
        · rw [if_pos hle]
        · rw [if_neg hle]
    | str str => simp [isPassthroughScalar] at hscalar
    | arr items => simp [isPassthroughScalar] at hscalar
    | obj entries => simp [isPassthroughScalar] at hscalar
    | circular => simp [isPassthroughScalar] at hscalar

/-- Witness for the amended C3: an in-budget value is returned unchanged. -/
theorem C3_witness :
    truncateData (JVal.bool true) 100 = Except.ok (JVal.bool true) :=
  (C3_truncate_amended (JVal.bool true) 100 4 rfl).1 (by norm_num)

/-- Counterexample to C4 as stated: on an unserializable (circular) input the
truncator does not return a placeholder string — the serialization error
propagates out of it. -/
theorem C4_counterexample :
    truncateData JVal.circular 100 = Except.error () := rfl

/-- Claim C4 amended: `truncateData` succeeds exactly on the inputs
`JSON.stringify` can serialize; on a serialization failure the error
propagates to the caller (it is not replaced by a placeholder value). -/
theorem C4_truncate_totality (v : JVal) (m : ℚ) :
    (truncateData v m).isOk = serializes v := by
  cases hser : serializes v with
  | false => rw [truncateData_error_of_not_serializes v m hser]; rfl
  | true =>
      obtain ⟨r, hr, -⟩ :=
        truncateData_ok_of_serializes (sizeOf v) v (le_refl _) m hser
      rw [hr]
      rfl

/-- `truncateDataT` agrees with the successful result of `truncateData`. -/
theorem truncateDataT_eq_of_ok (d : JVal) (m : ℚ) (r : JVal)
    (h : truncateData d m = .ok r) : truncateDataT d m = r := by
  simp [truncateDataT, h, Except.toOption]

/-- Claim C5: after every `addTokenUsage`, the ledger contains only events with
timestamp within the last 30 days: the appended event is retained exactly when
it is itself in-window, every previously held in-window event is retained,
every event older than the horizon is absent, and the resulting state is the
one persisted to the cookie. -/
theorem C5_ledger_window (st : TokenUsageStore) (d : TokenUsageData) (now : Int) :
    (∀ e ∈ (addTokenUsage now st d).usageData, now - maxHistoryMs ≤ e.timestamp)
    ∧ (now - maxHistoryMs ≤ d.timestamp → d ∈ (addTokenUsage now st d).usageData)
    ∧ ((addTokenUsage now st d).usageData ⊆ st.usageData ++ [d])
    ∧ (∀ e ∈ st.usageData, now - maxHistoryMs ≤ e.timestamp →
        e ∈ (addTokenUsage now st d).usageData)
    ∧ (∀ e, e.timestamp < now - maxHistoryMs →
        e ∉ (addTokenUsage now st d).usageData)
    ∧ (∀ cs : ClientUsageState, cs.store = st →
        (addTokenUsageClient now cs d).store = addTokenUsage now st d
        ∧ (addTokenUsageClient now cs d).cookie = some (addTokenUsage now st d)) := by
  refine ⟨?_, ?_, ?_, ?_, ?_, ?_⟩
  · intro e he
    simp only [addTokenUsage, List.mem_filter, decide_eq_true_eq] at he
    exact he.2
  · intro hd
    simp only [addTokenUsage, List.mem_filter, decide_eq_true_eq]
    exact ⟨by simp, hd⟩
  · intro e he
    simp only [addTokenUsage, List.mem_filter] at he
    exact he.1
  · intro e he hw
    simp only [addTokenUsage, List.mem_filter, decide_eq_true_eq]
    exact ⟨by simp [he], hw⟩
  · intro e hw he
    simp only [addTokenUsage, List.mem_filter, decide_eq_true_eq] at he
    omega
  · intro cs hcs
    constructor
    · simp [addTokenUsageClient, hcs]
    · simp [addTokenUsageClient, hcs]

/-- Concrete events and ledger used by the C5 witness. -/
def staleEventW : TokenUsageData :=
  { provider := "B", model := "m", promptTokens := 1, completionTokens := 1,
    totalTokens := 2, timestamp := 0 }

def freshEventW : TokenUsageData :=
  { provider := "C", model := "m", promptTokens := 1, completionTokens := 1,
    totalTokens := 2, timestamp := 2599999999999 }

def newEventW : TokenUsageData :=
  { provider := "A", model := "m", promptTokens := 1, completionTokens := 1,
    totalTokens := 2, timestamp := 2600000000000 }

def ledgerW : TokenUsageStore :=
  { usageData := [staleEventW, freshEventW], limits := [] }

/-- Witness for C5: at `now = 2600000000000` (past the 30-day horizon of the
stale event), the appended in-window event is retained and the stale event is
dropped. -/
theorem C5_witness :
    newEventW ∈ (addTokenUsage 2600000000000 ledgerW newEventW).usageData
    ∧ staleEventW ∉ (addTokenUsage 2600000000000 ledgerW newEventW).usageData := by
  constructor
  · exact (C5_ledger_window ledgerW newEventW 2600000000000).2.1
      (by norm_num [maxHistoryMs, newEventW])
  · exact (C5_ledger_window ledgerW newEventW 2600000000000).2.2.2.2.1 staleEventW
      (by norm_num [maxHistoryMs, staleEventW])

/-! ### Claim C10: clearLogs leaves one synthetic entry while enabled -/

/-- Claim C10: immediately after `clearLogs` while capture is enabled (with the
default positive capacity), the buffer contains exactly one entry — the
synthetic `info/system` "Logs cleared" entry appended after the clear; when
capture is disabled, `clearLogs` leaves the buffer empty. -/
theorem C10_clear_logs (st : DMState) (now : Int) (h : 1 ≤ st.maxLogs) :
    (st.isEnabled = true →
      ((clearLogs now st).1).logs
        = [mkLogEntry now .info .system "Logs cleared" none none st.maxDataSize])
    ∧ (st.isEnabled = false → ((clearLogs now st).1).logs = []) := by
  constructor
  · intro he
    unfold clearLogs
    rw [logCall_fst_logs _ _ _ _ _ _ _ (by simp [he]) (by simp) (by rfl)]
    have hm : ¬ st.maxLogs < 1 := by omega
    simp
    omega
  · intro he
    unfold clearLogs
    rw [logCall_fst_of_disabled _ _ _ _ _ _ _ (by simp [he])]

/-- Witness for C10 on a concrete enabled state holding two old entries. -/
theorem C10_witness :
    ((clearLogs 7
        { logs := [
            { timestamp := 1, level := .info, category := .user, message := "a",
              data := none, trace := none },
            { timestamp := 2, level := .warn, category := .system, message := "b",
              data := none, trace := none }]
          maxLogs := 100, maxDataSize := 50 * 1024, isEnabled := true,
          listeners := [] }).1).logs
      = [mkLogEntry 7 .info .system "Logs cleared" none none (50 * 1024)] := by
  exact (C10_clear_logs _ 7 (by norm_num)).1 rfl

/-! ### Claim C9: listener fan-out is aborted by a raising listener -/

/-- Counterexample to C9 as stated: with two registered listeners of which the
first raises, the second registered listener is not invoked for the new entry
(delivery is aborted and the exception propagates). -/
theorem C9_counterexample :
    ((logCall 0 .info .system "entry" none none
        { logs := [], maxLogs := 100, maxDataSize := 50 * 1024, isEnabled := true,
          listeners := [(1, true), (2, false)] }).2)
      = .notified { invoked := [1], raised := true }
    ∧ (2 : Nat) ∉ ([1] : List Nat) := by
  refine ⟨rfl, by decide⟩

/-- The `forEach` over listeners none of which raises invokes all of them. -/
theorem notifyListeners_all_ok (l : List (Nat × Bool)) (h : ∀ p ∈ l, p.2 = false) :
    notifyListeners l = { invoked := l.map Prod.fst, raised := false } := by
  induction l with
  | nil => rfl
  | cons p rest ih =>
      obtain ⟨id, willRaise⟩ := p
      have hp : willRaise = false := h (id, willRaise) (by simp)
      subst hp
      simp only [notifyListeners, if_false, Bool.false_eq_true, reduceIte]
      rw [ih (fun q hq => h q (by simp [hq]))]
      simp

/-- The `forEach` stops at the first raising listener: the non-raising prefix and
the raiser are invoked, nothing after it is, and the exception propagates. -/
theorem notifyListeners_aborts (l1 : List (Nat × Bool)) (id : Nat)
    (l2 : List (Nat × Bool)) (h : ∀ p ∈ l1, p.2 = false) :
    notifyListeners (l1 ++ (id, true) :: l2)
      = { invoked := l1.map Prod.fst ++ [id], raised := true } := by
  induction l1 with
  | nil => simp [notifyListeners]
  | cons p rest ih =>
      obtain ⟨q, willRaise⟩ := p
      have hp : willRaise = false := h (q, willRaise) (by simp)
      subst hp
      simp only [List.cons_append, notifyListeners, if_false, Bool.false_eq_true,
        reduceIte]
      simp only [List.append_eq]
      rw [ih (fun r hr => h r (by simp [hr]))]
      simp

/-- Claim C9 amended: for an entry whose attached data the runtime can
serialize, fan-out is synchronous over the registered listeners in
registration order; the retention buffer is updated (entry at head, capacity
enforced) before notification and independently of listener behavior; when no
listener raises every listener receives the entry — but a raising listener
aborts delivery to every listener registered after it and the exception
propagates out of `_log`.  When the attached data cannot be serialized, `_log`
itself throws before the append: the buffer is unchanged and no listener is
invoked at all. -/
theorem C9_fanout_isolation (now : Int) (lv : LogLevel) (cat : LogCategory)
    (msg : String) (d : Option JVal) (tr : Option String) (st : DMState)
    (h1 : st.isEnabled = true) (h2 : st.logs.length ≤ st.maxLogs) :
    (dataSerializes d st.maxDataSize = true →
      ((logCall now lv cat msg d tr st).1).logs
        = (mkLogEntry now lv cat msg d tr st.maxDataSize :: st.logs).take st.maxLogs)
    ∧ (dataSerializes d st.maxDataSize = true →
        (∀ p ∈ st.listeners, p.2 = false) →
        (logCall now lv cat msg d tr st).2
          = .notified { invoked := st.listeners.map Prod.fst, raised := false })
    ∧ (dataSerializes d st.maxDataSize = true →
        ∀ l1 id l2, st.listeners = l1 ++ (id, true) :: l2 →
        (∀ p ∈ l1, p.2 = false) →
        (logCall now lv cat msg d tr st).2
          = .notified { invoked := l1.map Prod.fst ++ [id], raised := true })
    ∧ (dataSerializes d st.maxDataSize = false →
        logCall now lv cat msg d tr st = (st, .threw)) := by
  have hsnd : dataSerializes d st.maxDataSize = true →
      (logCall now lv cat msg d tr st).2
        = .notified (notifyListeners st.listeners) := by
    intro hd
    simp [logCall, h1, hd]
  refine ⟨?_, ?_, ?_, ?_⟩
  · intro hd
    exact logCall_fst_logs now lv cat msg d tr st h1 h2 hd
  · intro hd h
    rw [hsnd hd, notifyListeners_all_ok st.listeners h]
  · intro hd l1 id l2 hl h
    rw [hsnd hd, hl, notifyListeners_aborts l1 id l2 h]
  · intro hd
    exact logCall_of_threw now lv cat msg d tr st h1 hd

/-- Witness for the amended C9: concrete aborted delivery, with the buffer
still updated. -/
theorem C9_witness :
    (((logCall 3 .warn .user "w" none none
        { logs := [], maxLogs := 100, maxDataSize := 50 * 1024, isEnabled := true,
          listeners := [(5, false), (6, true), (7, false)] }).1).logs
      = [mkLogEntry 3 .warn .user "w" none none (50 * 1024)])
    ∧ ((logCall 3 .warn .user "w" none none
        { logs := [], maxLogs := 100, maxDataSize := 50 * 1024, isEnabled := true,
          listeners := [(5, false), (6, true), (7, false)] }).2)
      = .notified { invoked := [5, 6], raised := true } := by
  have h := C9_fanout_isolation 3 .warn .user "w" none none
    { logs := [], maxLogs := 100, maxDataSize := 50 * 1024, isEnabled := true,
      listeners := [(5, false), (6, true), (7, false)] } rfl (by simp)
  refine ⟨?_, ?_⟩
  · rw [h.1 rfl]
    rfl
  · exact h.2.2.1 rfl [(5, false)] 6 [(7, false)] rfl (by decide)

/-! ### Claim C1: the retention buffer holds at most maxLogs, newest first -/

theorem take_append_take_of_le {α : Type} (l l' : List α) (M K : Nat) (h : M ≤ K) :
    (l ++ l'.take K).take M = (l ++ l').take M := by
  induction l generalizing M with
  | nil =>
      simp only [List.nil_append, List.take_take]
      rw [Nat.min_eq_left h]
  | cons a rest ih =>
      cases M with
      | zero => simp
      | succ M' =>
          simp only [List.cons_append, List.take_succ_cons]
          rw [ih M' (by omega)]

/-- Folding a sequence of `_log` calls over an enabled state whose buffer is
within capacity yields `take maxLogs` of the reversed entry list of the calls
that actually appended (a call whose truthy data cannot be serialized throws
inside `_log` and appends nothing), prepended to the old buffer. -/
theorem runLogs_logs (calls : List LogArgs) :
    ∀ st : DMState, st.isEnabled = true → st.logs.length ≤ st.maxLogs →
      (runLogs st calls).logs
        = (((calls.filter (fun a => dataSerializes a.data st.maxDataSize)).map
            (fun a => mkLogEntry a.now a.level a.category a.message a.data a.trace
              st.maxDataSize)).reverse ++ st.logs).take st.maxLogs := by
  induction calls with
  | nil =>
      intro st h1 h2
      simp [runLogs, List.take_of_length_le h2]
  | cons a rest ih =>
      intro st h1 h2
      have hstep : runLogs st (a :: rest)
          = runLogs ((logCall a.now a.level a.category a.message a.data a.trace st).1)
              rest := by
        simp [runLogs]
      by_cases hser : dataSerializes a.data st.maxDataSize = true
      · set st' := (logCall a.now a.level a.category a.message a.data a.trace st).1
          with hst'
        have hEn : st'.isEnabled = true := by
          rw [hst', logCall_fst_isEnabled, h1]
        have hMax : st'.maxLogs = st.maxLogs := by
          rw [hst', logCall_fst_maxLogs]
        have hMds : st'.maxDataSize = st.maxDataSize := by
          rw [hst', logCall_fst_maxDataSize]
        have hLogs : st'.logs
            = (mkLogEntry a.now a.level a.category a.message a.data a.trace
                st.maxDataSize :: st.logs).take st.maxLogs := by
          rw [hst', logCall_fst_logs _ _ _ _ _ _ _ h1 h2 hser]
        have hLen : st'.logs.length ≤ st'.maxLogs := by
          rw [hLogs, hMax]
          exact List.length_take_le _ _
        rw [hstep, ih st' hEn hLen, hMds, hMax, hLogs]
        rw [take_append_take_of_le _ _ st.maxLogs st.maxLogs (le_refl _)]
        simp [List.filter_cons, hser]
      · have hser' : dataSerializes a.data st.maxDataSize = false := by
          simpa using hser
        have hthrew : (logCall a.now a.level a.category a.message a.data a.trace st).1
            = st := by
          rw [logCall_of_threw _ _ _ _ _ _ _ h1 hser']
        rw [hstep, hthrew, ih st h1 h2]
        simp [List.filter_cons, hser']

/-- Claim C1: starting from an empty enabled buffer with any capacity `M`
(default 100 in `initialDMState`), after any sequence of `_log` calls the
buffer (as returned by `getLogs`) is exactly the most-recent-first `take M` of
the entries of the calls that appended — a call whose truthy data cannot be
serialized throws inside `_log` before the `unshift` and appends nothing,
hence the filter — so each newly appended entry appears at the head, overflow
discards the oldest, and the buffer never holds more than `M` entries. -/
theorem C1_retention_buffer (calls : List LogArgs) (M : Nat) :
    getLogs (runLogs
        { logs := [], maxLogs := M, maxDataSize := 50 * 1024, isEnabled := true,
          listeners := [] } calls)
      = (((calls.filter (fun a => dataSerializes a.data (50 * 1024))).map
          (fun a => mkLogEntry a.now a.level a.category a.message a.data a.trace
            (50 * 1024))).reverse).take M
    ∧ (getLogs (runLogs
        { logs := [], maxLogs := M, maxDataSize := 50 * 1024, isEnabled := true,
          listeners := [] } calls)).length ≤ M
    ∧ initialDMState.maxLogs = 100 := by
  have h := runLogs_logs calls
    { logs := [], maxLogs := M, maxDataSize := 50 * 1024, isEnabled := true,
      listeners := [] } rfl (by simp)
  simp only [List.append_nil] at h
  refine ⟨h, ?_, rfl⟩
  show (runLogs _ calls).logs.length ≤ M
  rw [h]
  exact List.length_take_le _ _

/-! ### Claims C6 and C7: enable/disable lifecycle -/

/-- Claim C6 (code bug witness): evaluating the source's lifecycle on the
failing input Enable → Disable → Enable from a pristine page.
`_teardownDebugMode` restores only the network, console and error
interceptors, so the `localStorage.setItem` wrapper installed by
`_monitorStateChanges` survives `disableDebug`, and the second `enableDebug`
wraps the already-wrapped primitive: the storage-set primitive ends up wrapped
twice, violating the at-most-one-active-copy property.  The network and
console interceptors, by contrast, are restored and stay single-wrapped. -/
theorem C6_double_wrap :
    (enableDebug 0 "t0" "ua" initialEnv).setItemImpl = 1
    ∧ (disableDebug 1 (enableDebug 0 "t0" "ua" initialEnv)).setItemImpl = 1
    ∧ (enableDebug 2 "t2" "ua"
        (disableDebug 1 (enableDebug 0 "t0" "ua" initialEnv))).setItemImpl = 2
    ∧ (enableDebug 2 "t2" "ua"
        (disableDebug 1 (enableDebug 0 "t0" "ua" initialEnv))).fetchImpl = 1
    ∧ (enableDebug 2 "t2" "ua"
        (disableDebug 1 (enableDebug 0 "t0" "ua" initialEnv))).consoleImpl = 1 := by
  refine ⟨rfl, rfl, rfl, rfl, rfl⟩

/-- Claim C7 (code bug witness): after Enable → Disable from a pristine page,
the buffer is cleared and the network/console/error interceptors are torn
down, but the periodic cleanup interval started by `enableDebug` is still
scheduled (`disableDebug` never calls `clearInterval`) and the
`_cleanupInterval` field still holds the stale handle. -/
theorem C7_disable_leaves_timer :
    (enableDebug 0 "t0" "ua" initialEnv).activeIntervals = 1
    ∧ (disableDebug 1 (enableDebug 0 "t0" "ua" initialEnv)).dm.logs = []
    ∧ (disableDebug 1 (enableDebug 0 "t0" "ua" initialEnv)).dm.isEnabled = false
    ∧ (disableDebug 1 (enableDebug 0 "t0" "ua" initialEnv)).activeIntervals = 1
    ∧ (disableDebug 1 (enableDebug 0 "t0" "ua" initialEnv)).cleanupHandleSet = true
    ∧ (disableDebug 1 (enableDebug 0 "t0" "ua" initialEnv)).fetchImpl = 0
    ∧ (disableDebug 1 (enableDebug 0 "t0" "ua" initialEnv)).consoleImpl = 0
    ∧ (disableDebug 1 (enableDebug 0 "t0" "ua" initialEnv)).errorHandlersSet = false := by
  refine ⟨rfl, rfl, rfl, rfl, rfl, rfl, rfl, rfl⟩

/-! ### Claim C2: the windowed usage aggregates -/

/-- The events of `st` inside window `r` evaluated at instant `now` — the
filter applied by `getUsageStats`. -/
def windowEvents (r : TimeRange) (now : Int) (st : TokenUsageStore) :
    List TokenUsageData :=
  st.usageData.filter (fun d => decide (cutoffTimeOf r now ≤ d.timestamp))

/-- Total tokens contributed by provider `p` within an event list. -/
def providerTokenSum (l : List TokenUsageData) (p : String) : Int :=
  ((l.filter (fun d => decide (d.provider = p))).map (fun d => d.totalTokens)).sum

theorem foldl_add_map {α : Type} (f : α → Int) (l : List α) :
    ∀ a : Int, l.foldl (fun s x => s + f x) a = a + (l.map f).sum := by
  induction l with
  | nil => intro a; simp
  | cons x rest ih =>
      intro a
      simp only [List.foldl_cons, List.map_cons, List.sum_cons, ih]
      ring

theorem recordGet_recordSet (acc : List (String × Int)) (p : String) (t : Int)
    (q : String) :
    recordGet (recordSet acc p t) q = if q = p then some t else recordGet acc q := by
  induction acc with
  | nil =>
      by_cases h : q = p
      · simp [recordSet, recordGet, h]
      · have h' : ¬ p = q := fun hh => h hh.symm
        simp [recordSet, recordGet, h, h']
  | cons hd rest ih =>
      obtain ⟨k, u⟩ := hd
      by_cases hk : k = p
      · subst hk
        simp only [recordSet, if_pos rfl]
        by_cases hq : q = k
        · simp [recordGet, hq]
        · have hq' : ¬ k = q := fun hh => hq hh.symm
          simp [recordGet, hq, hq']
      · simp only [recordSet, if_neg hk]
        by_cases hq : k = q
        · subst hq
          simp [recordGet, hk]
        · simp [recordGet, hq, ih]

theorem recordGet_bumpProvider (acc : List (String × Int)) (p : String) (t : Int)
    (q : String) :
    recordGet (bumpProvider acc p t) q
      = if q = p then some ((recordGet acc p).getD 0 + t) else recordGet acc q := by
  unfold bumpProvider
  exact recordGet_recordSet acc p _ q

theorem mem_keys_recordSet (acc : List (String × Int)) (p : String) (t : Int)
    (q : String) :
    q ∈ (recordSet acc p t).map Prod.fst ↔ q ∈ acc.map Prod.fst ∨ q = p := by
  induction acc with
  | nil => simp [recordSet]
  | cons hd rest ih =>
      obtain ⟨k, u⟩ := hd
      by_cases hk : k = p
      · subst hk
        simp [recordSet]
        tauto
      · simp [recordSet, hk, ih]
        tauto

theorem nodupKeys_recordSet (acc : List (String × Int)) (p : String) (t : Int)
    (h : (acc.map Prod.fst).Nodup) : ((recordSet acc p t).map Prod.fst).Nodup := by
  induction acc with
  | nil => simp [recordSet]
  | cons hd rest ih =>
      obtain ⟨k, u⟩ := hd
      simp only [List.map_cons, List.nodup_cons] at h
      by_cases hk : k = p
      · subst hk
        have hrs : recordSet ((k, u) :: rest) k t = (k, t) :: rest := by
          simp [recordSet]
        rw [hrs]
        simp only [List.map_cons, List.nodup_cons]
        exact h
      · simp only [recordSet, if_neg hk, List.map_cons, List.nodup_cons]
        refine ⟨?_, ih h.2⟩
        rw [mem_keys_recordSet]
        rintro (hin | hin)
        · exact h.1 hin
        · exact hk hin

theorem nodupKeys_bumpProvider (acc : List (String × Int)) (p : String) (t : Int)
    (h : (acc.map Prod.fst).Nodup) :
    ((bumpProvider acc p t).map Prod.fst).Nodup :=
  nodupKeys_recordSet acc p _ h

theorem mem_iff_recordGet (acc : List (String × Int))
    (h : (acc.map Prod.fst).Nodup) (p : String) (u : Int) :
    (p, u) ∈ acc ↔ recordGet acc p = some u := by
  induction acc with
  | nil => simp [recordGet]
  | cons hd rest ih =>
      obtain ⟨k, w⟩ := hd
      simp only [List.map_cons, List.nodup_cons] at h
      by_cases hk : k = p
      · subst hk
        have hrg : recordGet ((k, w) :: rest) k = some w := by simp [recordGet]
        rw [hrg]
        simp only [List.mem_cons, Prod.mk.injEq, Option.some.injEq]
        constructor
        · rintro (⟨-, hw⟩ | hmem)
          · exact hw.symm
          · exact absurd (List.mem_map.mpr ⟨(k, u), hmem, rfl⟩) h.1
        · intro hw
          exact Or.inl ⟨trivial, hw.symm⟩
      · have hrg : recordGet ((k, w) :: rest) p = recordGet rest p := by
          simp [recordGet, hk]
        rw [hrg, List.mem_cons, ← ih h.2]
        constructor
        · rintro (heq | hmem)
          · simp only [Prod.mk.injEq] at heq
            exact absurd heq.1 (fun hh => hk hh.symm)
          · exact hmem
        · exact Or.inr

/-- Characterization of the `providerUsage` accumulator: looking up provider
`q` after folding `bumpProvider` over the event list gives the provider's
total for the list (added to whatever the accumulator already held). -/
theorem recordGet_foldBump (l : List TokenUsageData) :
    ∀ (acc : List (String × Int)) (q : String),
      recordGet (l.foldl (fun acc d => bumpProvider acc d.provider d.totalTokens) acc) q
        = match recordGet acc q with
          | some u => some (u + providerTokenSum l q)
          | none =>
              if l.any (fun d => decide (d.provider = q)) then some (providerTokenSum l q)
              else none := by
  induction l with
  | nil =>
      intro acc q
      cases hg : recordGet acc q <;> simp [providerTokenSum, hg]
  | cons d rest ih =>
      intro acc q
      simp only [List.foldl_cons]
      rw [ih (bumpProvider acc d.provider d.totalTokens) q]
      by_cases hq : q = d.provider
      · have hdq : d.provider = q := hq.symm
        rw [recordGet_bumpProvider, if_pos hq]
        have hsum : providerTokenSum (d :: rest) q
            = d.totalTokens + providerTokenSum rest q := by
          simp [providerTokenSum, hdq]
        cases hg : recordGet acc q with
        | some u =>
            have hgq : recordGet acc d.provider = some u := by rw [hdq]; exact hg
            rw [hgq]
            simp only [Option.getD_some, hsum]
            congr 1
            ring
        | none =>
            have hgq : recordGet acc d.provider = none := by rw [hdq]; exact hg
            rw [hgq]
            have hone : ((d :: rest).any fun x => decide (x.provider = q)) = true := by
              simp [hdq]
            simp only [Option.getD_none, hsum, zero_add, hone, if_true, reduceIte]
      · have hdq : ¬ d.provider = q := fun hh => hq hh.symm
        rw [recordGet_bumpProvider, if_neg hq]
        have hsum : providerTokenSum (d :: rest) q = providerTokenSum rest q := by
          simp [providerTokenSum, hdq]
        have hany : (d :: rest).any (fun d => decide (d.provider = q))
            = rest.any (fun d => decide (d.provider = q)) := by
          simp [hdq]
        rw [hsum, hany]

theorem nodupKeys_foldBump (l : List TokenUsageData) :
    ∀ acc : List (String × Int), (acc.map Prod.fst).Nodup →
      ((l.foldl (fun acc d => bumpProvider acc d.provider d.totalTokens) acc).map
        Prod.fst).Nodup := by
  induction l with
  | nil => intro acc h; simpa using h
  | cons d rest ih =>
      intro acc h
      simp only [List.foldl_cons]
      exact ih _ (nodupKeys_bumpProvider acc d.provider d.totalTokens h)

/-- Membership in the fully folded `providerUsage` record: exactly the
providers appearing in the list, each bound to its token total. -/
theorem mem_foldBump_iff (l : List TokenUsageData) (p : String) (u : Int) :
    (p, u) ∈ l.foldl (fun acc d => bumpProvider acc d.provider d.totalTokens) []
      ↔ (∃ d ∈ l, d.provider = p) ∧ u = providerTokenSum l p := by
  rw [mem_iff_recordGet _ (nodupKeys_foldBump l [] (by simp)) p u]
  rw [recordGet_foldBump l [] p]
  simp only [recordGet]
  by_cases hany : l.any (fun d => decide (d.provider = p))
  · simp only [hany, if_true, reduceIte, Option.some.injEq]
    simp only [List.any_eq_true, decide_eq_true_eq] at hany
    constructor
    · intro h
      exact ⟨hany, h.symm⟩
    · intro h
      exact h.2.symm
  · simp only [hany, if_false, Bool.false_eq_true, reduceIte]
    simp only [List.any_eq_true, decide_eq_true_eq] at hany
    constructor
    · intro h
      exact absurd h (by simp)
    · intro h
      exact absurd h.1 hany

/-- The single event of the spec's worked example. -/
def usageEventA : TokenUsageData :=
  { provider := "A", model := "m", promptTokens := 60, completionTokens := 40,
    totalTokens := 100, timestamp := 0 }

/-- The ledger of the spec's worked example: one event, `limits = \x7bA: 1000\x7d`. -/
def usageStoreA : TokenUsageStore :=
  { usageData := [usageEventA], limits := [("A", 1000)] }

/-- Claim C2: `getUsageStats` computes its aggregates over exactly the
in-window events: `total` is the sum of all configured limits (not
window-filtered), `used` sums `totalTokens` over in-window events,
`remaining = max 0 (total - used)`, `percentUsed = used/total*100` when
`total > 0` (else 0), the provider breakdown assigns each in-window provider
its token total and share of `used`; an event 25 hours old is outside the 24h
window but inside 7d, 30d and all; and the worked single-event example
evaluates to `total=1000, used=100, remaining=900, percentUsed=10,
breakdown=[(A,100,100%)]`. -/
theorem C2_usage_stats (r : TimeRange) (st : TokenUsageStore) (now : Int) :
    (getUsageStats r st now).total = (st.limits.map (fun l => l.2)).sum
    ∧ (getUsageStats r st now).used
        = ((windowEvents r now st).map (fun d => d.totalTokens)).sum
    ∧ (getUsageStats r st now).remaining
        = max 0 ((getUsageStats r st now).total - (getUsageStats r st now).used)
    ∧ (getUsageStats r st now).percentUsed
        = (if 0 < (getUsageStats r st now).total
            then (((getUsageStats r st now).used : ℚ)
              / ((getUsageStats r st now).total : ℚ)) * 100
            else 0)
    ∧ (∀ p u pct, (p, u, pct) ∈ (getUsageStats r st now).providerBreakdown →
        u = providerTokenSum (windowEvents r now st) p
        ∧ pct = (if 0 < (getUsageStats r st now).used
            then ((u : ℚ) / ((getUsageStats r st now).used : ℚ)) * 100
            else 0))
    ∧ (∀ p, (∃ u pct, (p, u, pct) ∈ (getUsageStats r st now).providerBreakdown)
        ↔ ∃ d ∈ windowEvents r now st, d.provider = p)
    ∧ (∀ e : TokenUsageData, e.timestamp = now - 25 * 60 * 60 * 1000 →
        0 ≤ e.timestamp →
        ¬ (cutoffTimeOf .h24 now ≤ e.timestamp)
        ∧ cutoffTimeOf .d7 now ≤ e.timestamp
        ∧ cutoffTimeOf .d30 now ≤ e.timestamp
        ∧ cutoffTimeOf .all now ≤ e.timestamp)
    ∧ getUsageStats .all usageStoreA 0
        = { total := 1000, used := 100, remaining := 900, percentUsed := 10,
            providerBreakdown := [("A", 100, 100)] } := by
  have hused : (getUsageStats r st now).used
      = ((windowEvents r now st).map (fun d => d.totalTokens)).sum := by
    show (windowEvents r now st).foldl (fun sum d => sum + d.totalTokens) 0 = _
    rw [foldl_add_map (fun d => d.totalTokens) (windowEvents r now st) 0, zero_add]
  have hpb : (getUsageStats r st now).providerBreakdown
      = ((windowEvents r now st).foldl
          (fun acc d => bumpProvider acc d.provider d.totalTokens) []).map
        (fun pu => (pu.1, pu.2,
          if 0 < (getUsageStats r st now).used
          then ((pu.2 : ℚ) / ((getUsageStats r st now).used : ℚ)) * 100 else 0)) := rfl
  refine ⟨?_, hused, rfl, rfl, ?_, ?_, ?_, ?_⟩
  · show st.limits.foldl (fun sum l => sum + l.2) 0 = _
    rw [foldl_add_map (fun l => l.2) st.limits 0, zero_add]
  · intro p u pct hmem
    rw [hpb] at hmem
    obtain ⟨pu, hpu, heq⟩ := List.mem_map.mp hmem
    simp only [Prod.mk.injEq] at heq
    obtain ⟨h1, h2, h3⟩ := heq
    obtain ⟨pa, pb⟩ := pu
    simp only at h1 h2 h3
    subst h1; subst h2
    have := (mem_foldBump_iff (windowEvents r now st) pa pb).mp hpu
    exact ⟨this.2, h3.symm⟩
  · intro p
    constructor
    · rintro ⟨u, pct, hmem⟩
      rw [hpb] at hmem
      obtain ⟨pu, hpu, heq⟩ := List.mem_map.mp hmem
      simp only [Prod.mk.injEq] at heq
      obtain ⟨pa, pb⟩ := pu
      simp only at heq
      obtain ⟨h1, -, -⟩ := heq
      subst h1
      exact ((mem_foldBump_iff (windowEvents r now st) pa pb).mp hpu).1
    · rintro ⟨d, hd, hdp⟩
      refine ⟨providerTokenSum (windowEvents r now st) p,
        (if 0 < (getUsageStats r st now).used
          then ((providerTokenSum (windowEvents r now st) p : ℚ)
            / ((getUsageStats r st now).used : ℚ)) * 100 else 0), ?_⟩
      rw [hpb]
      refine List.mem_map.mpr ⟨(p, providerTokenSum (windowEvents r now st) p), ?_, rfl⟩
      exact (mem_foldBump_iff (windowEvents r now st) p _).mpr ⟨⟨d, hd, hdp⟩, rfl⟩
  · intro e h1 h2
    refine ⟨?_, ?_, ?_, ?_⟩ <;> simp only [cutoffTimeOf] <;> omega
  · norm_num [getUsageStats, usageStoreA, usageEventA, cutoffTimeOf, windowEvents,
      bumpProvider, recordSet, recordGet]

/-- Witness for C2: the 25-hour-old event at a concrete instant. -/
theorem C2_witness :
    ¬ (cutoffTimeOf .h24 360000000 ≤ (270000000 : Int))
    ∧ cutoffTimeOf .d7 360000000 ≤ (270000000 : Int) := by
  have h := (C2_usage_stats .all initialTokenUsageState 360000000).2.2.2.2.2.2.1
  obtain ⟨ha, hb, -, -⟩ := h
    { provider := "p", model := "m", promptTokens := 0, completionTokens := 0,
      totalTokens := 0, timestamp := 270000000 } (by norm_num) (by norm_num)
  exact ⟨ha, hb⟩

